import Mathlib

/-!
Shallow embedding of `src/agent/agent.c` (the Live Migrator JVMTI heap-walking
agent) and proofs about it.

Modelling conventions:
* Machine integers are `Nat` with explicit `% 2 ^ 32` / `% 2 ^ 64` where the C
  code masks or where wrap-around matters.  `jlong` slot/tag values are the
  unsigned 64-bit bit pattern of the stored value.
* A heap object is its per-object JVMTI tag slot (`Option Nat`, `none`
  modelling a NULL `tag_ptr`, which `heap_tagging_cb` and `clear_tag_cb`
  check for) together with the class name the JNI `getName` chain resolves
  for it (`none` models any of the per-entry introspection failures, which
  the C code degrades to a NULL name of length 0).
* Heap iteration (`IterateThroughHeap`) is driven over the list of objects
  the external capability visits for the requested class, in visit order.
* `malloc` / `realloc` / `calloc` / `NewByteArray` outcomes are injected
  through an explicit allocation schedule (`List Bool`), consumed one entry
  per allocation call in program order; an exhausted schedule means every
  remaining allocation succeeds.
* `GetObjectsWithTags` is the external batch resolution capability: it is
  modelled by matching the requested tags against the visited objects'
  slots (`gowtOfHeap`), with a boolean `gowtOk` injecting the JVMTI-error
  path (`err != JVMTI_ERROR_NONE`), in which the C code proceeds with
  `found = 0`.
* JNI lookups of the bootstrap classes `java/lang/Class`, `java/lang/Object`
  and of the `getName` method id are modelled as succeeding (setup glue).
-/

namespace Agent

/-- `2 ^ 32`, the size of the epoch / local-counter words. -/
def W32 : Nat := 2 ^ 32

/-- `2 ^ 64`, the size of a `jlong` bit pattern. -/
def W64 : Nat := 2 ^ 64

/-- `INT_MAX` for the 32-bit signed `jint` / snapshot size check. -/
def INT_MAX : Nat := 2 ^ 31 - 1

/-- A heap object as seen by the agent: its JVMTI tag slot (`none` models a
NULL `tag_ptr`) and the class name that the `GetObjectClass` / `getName` /
`GetStringUTFChars` chain yields for it (`none` models a failure of that
chain, which the C code degrades to a NULL name with length 0). -/
structure HObj where
  slot : Option Nat
  name : Option (List Nat)
deriving DecidableEq, Repr

/-- Tag composition from `heap_tagging_cb` line 129:
`(((uint64_t)(uint32_t)g_epoch) << 32) | ((uint64_t)local & 0xFFFFFFFFULL)`.
The cast `(uint32_t)g_epoch` is reduction of the 64-bit pattern mod `2^32`. -/
def mkTag (epoch localv : Nat) : Nat :=
  ((epoch % W32) <<< 32) ||| (localv &&& 0xFFFFFFFF)

/-- `tag_collector_t`: the growable tag buffer.  The C `count` field is
`tags.length`; `capacity` and the sticky `alloc_failed` flag are explicit. -/
structure tag_collector_t where
  tags : List Nat
  capacity : Nat
  alloc_failed : Bool
deriving DecidableEq, Repr

/-- The empty collector (`memset(&col, 0, sizeof(col))`). -/
def emptyCol : tag_collector_t := ⟨[], 0, false⟩

/-- Consume one allocation outcome from the injected schedule.  An exhausted
schedule means the allocation succeeds. -/
def takeAlloc : List Bool → Bool × List Bool
  | [] => (true, [])
  | b :: rest => (b, rest)

/-- `tag_add`: append one tag, doubling the capacity from a baseline of 128
when full; a failed `realloc` sets the sticky `alloc_failed` flag and keeps
the previously collected contents.  Returns the updated collector, the C
return value (`true` for 0, `false` for -1) and the remaining schedule. -/
def tag_add (c : tag_collector_t) (tag : Nat) (al : List Bool) :
    tag_collector_t × Bool × List Bool :=
  if c.alloc_failed then (c, false, al)
  else if c.tags.length ≥ c.capacity then
    let newCap := if c.capacity = 0 then 128 else c.capacity * 2
    if (takeAlloc al).1 then
      ({ c with tags := c.tags ++ [tag], capacity := newCap }, true, (takeAlloc al).2)
    else ({ c with alloc_failed := true }, false, (takeAlloc al).2)
  else ({ c with tags := c.tags ++ [tag] }, true, al)

/-- `clear_tag_cb`: zero the slot iff the pointer is non-NULL and the value
is non-zero. -/
def clear_tag_cb (o : HObj) : HObj :=
  match o.slot with
  | none => o
  | some v => if v ≠ 0 then { o with slot := some 0 } else o

/-- `clear_all_tags`: run `clear_tag_cb` over every heap object. -/
def clear_all_tags (h : List HObj) : List HObj := h.map clear_tag_cb

/-- Result of `heap_tagging_cb` on one visited object: the (possibly
re-tagged) object, the new `g_local_counter`, the collector, the remaining
allocation schedule, and whether the callback returned
`JVMTI_ITERATION_CONTINUE` (`false` = `JVMTI_ITERATION_ABORT`). -/
structure CbResult where
  obj : HObj
  ctr : Nat
  col : tag_collector_t
  al : List Bool
  cont : Bool
deriving DecidableEq, Repr

/-- `heap_tagging_cb`: skip NULL tag pointers and already-tagged objects;
otherwise fetch-and-add the local counter, compose the tag, store it in the
object's slot, and only then append it to the collector, aborting the
iteration if the append fails. -/
def heap_tagging_cb (epoch : Nat) (o : HObj) (ctr : Nat)
    (col : tag_collector_t) (al : List Bool) : CbResult :=
  match o.slot with
  | none => ⟨o, ctr, col, al, true⟩
  | some v =>
    if v ≠ 0 then ⟨o, ctr, col, al, true⟩
    else
      let localv := ctr
      let ctr' := (ctr + 1) % W64
      let tag := mkTag epoch localv
      let o' : HObj := { o with slot := some tag }
      let p := tag_add col tag al
      ⟨o', ctr', p.1, p.2.2, p.2.1⟩

/-- Result of a whole tagging pass (`IterateThroughHeap` with
`heap_tagging_cb`): the visited objects after the pass, the final counter,
the collector and the remaining allocation schedule. -/
structure PassResult where
  heap : List HObj
  ctr : Nat
  col : tag_collector_t
  al : List Bool
deriving DecidableEq, Repr

/-- One tagging pass over the visited objects in order; an aborting callback
stops the iteration, leaving the remaining objects untouched. -/
def runTagPass (epoch : Nat) : List HObj → Nat → tag_collector_t → List Bool → PassResult
  | [], ctr, col, al => ⟨[], ctr, col, al⟩
  | o :: rest, ctr, col, al =>
    let r := heap_tagging_cb epoch o ctr col al
    if r.cont then
      let p := runTagPass epoch rest r.ctr r.col r.al
      ⟨r.obj :: p.heap, p.ctr, p.col, p.al⟩
    else
      ⟨r.obj :: rest, r.ctr, r.col, r.al⟩

/-- `GetObjectsWithTags` modelled against the visited objects: every visited
object whose current slot holds one of the requested tags is returned, in
visit order, paired with its tag (the `objects` / `tagsOut` parallel
arrays). -/
def gowtOfHeap (heap : List HObj) (tags : List Nat) : List (HObj × Nat) :=
  heap.filterMap fun o =>
    match o.slot with
    | some v => if v ∈ tags then some (o, v) else none
    | none => none

/-- The resolution step of `nativeSnapshotBytes` (lines 202-214): call the
external capability only when `count > 0`; on a JVMTI error (`gowtOk =
false`) the C code logs and proceeds with `found = 0`. -/
def resolveStage (gowtOk : Bool) (heap : List HObj) (tags : List Nat) :
    List (HObj × Nat) :=
  if 0 < tags.length then
    if gowtOk then gowtOfHeap heap tags else []
  else []

/-- One prepared snapshot record: the object's tag, the class-name bytes
(`[]` when the name is NULL), and whether the name chain succeeded for this
entry.  A degraded entry (`counted = false`) keeps `lens[i] = 0` and — as in
the C code, whose per-entry `continue` skips the `total += 8 + 4 + len`
line — contributes nothing to the size pre-pass. -/
structure SnapEntry where
  tag : Nat
  name : List Nat
  counted : Bool
deriving DecidableEq, Repr

/-- The class-name resolution loop (lines 252-321): a failed introspection
chain degrades the entry to a NULL name of length 0; a non-empty name is
copied through a fallible `malloc`, whose failure aborts the whole call. -/
def prepNames : List (HObj × Nat) → List Bool → Option (List SnapEntry × List Bool)
  | [], al => some ([], al)
  | (o, t) :: rest, al =>
    match o.name with
    | none =>
      match prepNames rest al with
      | none => none
      | some (es, al') => some (⟨t, [], false⟩ :: es, al')
    | some nm =>
      if 0 < nm.length then
        if (takeAlloc al).1 then
          match prepNames rest (takeAlloc al).2 with
          | none => none
          | some (es, al'') => some (⟨t, nm, true⟩ :: es, al'')
        else none
      else
        match prepNames rest al with
        | none => none
        | some (es, al') => some (⟨t, [], true⟩ :: es, al')

/-- The size pre-pass: `total` starts at 4 and each entry whose name chain
succeeded adds `8 + 4 + len`. -/
def snapTotal (es : List SnapEntry) : Nat :=
  4 + (es.map fun e => if e.counted then 8 + 4 + e.name.length else 0).sum

/-- The big-endian byte-extraction loop of the encoder
(`for (int b = 7; b >= 0; b--) { p[b] = ut & 0xFF; ut >>= 8; }`),
generalized over the byte count: the last byte is the lowest one. -/
def be_bytes : Nat → Nat → List Nat
  | 0, _ => []
  | k + 1, ut => be_bytes k (ut >>> 8) ++ [ut &&& 0xFF]

/-- The four shift-and-mask stores used for the count and length fields
(`p[0] = (x >> 24) & 0xFF; ...`). -/
def be32 (n : Nat) : List Nat :=
  [(n >>> 24) &&& 0xFF, (n >>> 16) &&& 0xFF, (n >>> 8) &&& 0xFF, n &&& 0xFF]

/-- The encoding loop (lines 349-377): 4-byte big-endian count, then per
record an 8-byte big-endian tag, a 4-byte big-endian length and — only when
`l > 0` and the name is non-NULL — the name bytes. -/
def encodeStage (es : List SnapEntry) : List Nat :=
  be32 es.length ++
    es.flatMap fun e =>
      be_bytes 8 e.tag ++ be32 e.name.length ++
        (if 0 < e.name.length then e.name else [])

/-- Everything `nativeSnapshotBytes` does after the tagging pass: resolve
the collected tags, `calloc` the `names` / `lens` arrays when `found > 0`,
run the name loop, check the total against `INT_MAX`, `malloc` the output
buffer, encode, and build the Java byte array. -/
def snapAfterPass (gowtOk : Bool) (heap : List HObj) (tags : List Nat)
    (al : List Bool) : Option (List Nat) :=
  let resolved := resolveStage gowtOk heap tags
  let step1 : Option (List (HObj × Nat) × List Bool) :=
    if 0 < resolved.length then
      if (takeAlloc al).1 && (takeAlloc (takeAlloc al).2).1 then
        some (resolved, (takeAlloc (takeAlloc al).2).2)
      else none
    else some (resolved, al)
  match step1 with
  | none => none
  | some (res, al1) =>
    match prepNames res al1 with
    | none => none
    | some (entries, al2) =>
      if snapTotal entries > INT_MAX then none
      else
        if (takeAlloc al2).1 then
          if (takeAlloc (takeAlloc al2).2).1 then some (encodeStage entries)
          else none
        else none

/-- `Java_migrator_heap_NativeHeapWalker_nativeSnapshotBytes` for a resolved
target class: clear all tags, reset the local counter to 1 (under the memory
barrier), run the tagging pass over the visited objects of the class, and
hand its outcome to the post-pass pipeline.  The collector's `alloc_failed`
flag is — exactly as in the C code — never consulted after the pass. -/
def nativeSnapshotBytes (gowtOk : Bool) (h : List HObj) (epoch : Nat)
    (al : List Bool) : Option (List Nat) :=
  let r := runTagPass epoch (clear_all_tags h) 1 emptyCol al
  snapAfterPass gowtOk r.heap r.col.tags r.al

/-- `Java_migrator_heap_NativeHeapWalker_nativeAdvanceEpoch`:
`__sync_fetch_and_add(&g_epoch, 1)` — the stored 64-bit pattern after one
atomic increment. -/
def nativeAdvanceEpoch (e : Nat) : Nat := (e + 1) % W64

/-- Outcome of the multi-class filtered walk: the returned reference array
(`none` = NULL), every object reference the native code explicitly released
via `DeleteLocalRef`, in release order, and the final epoch. -/
structure WalkResult where
  result : Option (List HObj)
  released : List HObj
  epoch : Nat
deriving DecidableEq, Repr

/-- The per-class loop of `nativeWalkHeapFiltered` (lines 555-681).  Each
requested class is either unresolvable (`none`: NULL array slot, failed
chars, or failed `FindClass` — all skipped) or the list of objects the heap
iteration visits for it.  For a resolved class: bump the epoch, reset the
local counter under the barrier, run a tagging pass with a fresh collector,
resolve the collected tags, and append the found references to the shared
buffer, growing it by `cap * 2 + found` (seeded at `found + 64`) through a
fallible `realloc`; on growth failure the current batch is released and the
whole call returns NULL.  After the last class, an empty buffer yields NULL;
otherwise the result array is built (a fallible `NewObjectArray`) and every
stored reference is released after being copied into it. -/
def walkLoop : List (Option (List HObj)) → List HObj → Nat → Nat →
    List Bool → List HObj → WalkResult
  | [], collected, _cap, epoch, al, released =>
    if collected.length = 0 then ⟨none, released, epoch⟩
    else
      if (takeAlloc al).1 then ⟨some collected, released ++ collected, epoch⟩
      else ⟨none, released ++ collected, epoch⟩
  | none :: rest, collected, cap, epoch, al, released =>
    walkLoop rest collected cap epoch al released
  | some objs :: rest, collected, cap, epoch, al, released =>
    let epoch' := (epoch + 1) % W64
    let r := runTagPass epoch' objs 1 emptyCol al
    if r.col.tags.length = 0 then
      walkLoop rest collected cap epoch' r.al released
    else
      let found := gowtOfHeap r.heap r.col.tags
      if 0 < found.length then
        if collected.length + found.length > cap then
          let newCap := if cap = 0 then found.length + 64
                        else cap * 2 + found.length
          if (takeAlloc r.al).1 then
            walkLoop rest (collected ++ found.map Prod.fst) newCap epoch'
              (takeAlloc r.al).2 released
          else
            ⟨none, released ++ found.map Prod.fst, epoch'⟩
        else
          walkLoop rest (collected ++ found.map Prod.fst) cap epoch' r.al released
      else
        walkLoop rest collected cap epoch' r.al released

/-- `Java_migrator_heap_NativeHeapWalker_nativeWalkHeapFiltered`: NULL or
empty class-name arrays yield NULL; otherwise run the per-class loop with an
empty shared buffer. -/
def nativeWalkHeapFiltered (classes : List (Option (List HObj))) (epoch : Nat)
    (al : List Bool) : WalkResult :=
  if classes.length = 0 then ⟨none, [], epoch⟩
  else walkLoop classes [] 0 epoch al []

/-- The identifiers a pass hands out: the slot values of exactly those
visited objects whose slot the pass changed, in visit order. -/
def assignedTags (h h' : List HObj) : List Nat :=
  (h.zip h').filterMap fun p => if p.1.slot ≠ p.2.slot then p.2.slot else none

/-! ### Arithmetic facts about the tag composition -/

theorem mkTag_eq (e l : Nat) : mkTag e l = W32 * (e % W32) + l % W32 := by
  have hmask : (0xFFFFFFFF : Nat) = 2 ^ 32 - 1 := by norm_num
  have hb : l % 2 ^ 32 < 2 ^ 32 := Nat.mod_lt _ (by norm_num)
  simp only [mkTag, W32, hmask, Nat.and_pow_two_sub_one_eq_mod, Nat.shiftLeft_eq,
    Nat.mul_comm _ (2 ^ 32), ← Nat.mul_add_lt_is_or hb]

theorem mkTag_div (e l : Nat) : mkTag e l / W32 = e % W32 := by
  have h32 : 0 < W32 := by simp [W32]
  rw [mkTag_eq, Nat.mul_add_div h32, Nat.div_eq_of_lt (Nat.mod_lt _ h32),
    Nat.add_zero]

theorem mkTag_mod (e l : Nat) : mkTag e l % W32 = l % W32 := by
  rw [mkTag_eq, Nat.mul_add_mod, Nat.mod_mod_of_dvd _ dvd_rfl]

theorem mkTag_wrap (e l : Nat) : mkTag e (l + W32) = mkTag e l := by
  rw [mkTag_eq, mkTag_eq, Nat.add_mod_right]

theorem mkTag_ne_zero (e l : Nat) (h : l % W32 ≠ 0) : mkTag e l ≠ 0 := by
  intro h0
  exact h (by simpa [h0] using (mkTag_mod e l).symm)

theorem mkTag_inj (e : Nat) {l₁ l₂ : Nat} (h₁ : l₁ < W32) (h₂ : l₂ < W32)
    (h : mkTag e l₁ = mkTag e l₂) : l₁ = l₂ := by
  have := congrArg (· % W32) h
  simpa [mkTag_mod, Nat.mod_eq_of_lt h₁, Nat.mod_eq_of_lt h₂] using this

theorem mkTag_lt (e l : Nat) : mkTag e l < W64 := by
  have h1 : e % W32 < W32 := Nat.mod_lt _ (by simp [W32])
  have h2 : l % W32 < W32 := Nat.mod_lt _ (by simp [W32])
  have : W32 * (e % W32) + l % W32 < W32 * W32 := by
    calc W32 * (e % W32) + l % W32 < W32 * (e % W32) + W32 := by omega
    _ = W32 * (e % W32 + 1) := by ring
    _ ≤ W32 * W32 := Nat.mul_le_mul_left _ (by omega)
  rw [mkTag_eq]
  simpa [W32, W64, ← pow_add] using this

/-! ### Step lemmas for the collector and the tagging callback -/

theorem tag_add_cases (c : tag_collector_t) (tag : Nat) (al : List Bool)
    (h : c.alloc_failed = false) :
    ((tag_add c tag al).2.1 = true ∧ (tag_add c tag al).1.tags = c.tags ++ [tag]
        ∧ (tag_add c tag al).1.alloc_failed = false) ∨
    ((tag_add c tag al).2.1 = false ∧ (tag_add c tag al).1.tags = c.tags
        ∧ (tag_add c tag al).1.alloc_failed = true) := by
  unfold tag_add
  rw [h]
  by_cases hc : c.tags.length ≥ c.capacity
  · by_cases hok : (takeAlloc al).1 = true
    · left; simp [hc, hok]
    · right; simp [hc, hok]
  · left; simp [hc]

theorem tag_add_al_nil (c : tag_collector_t) (tag : Nat) :
    (tag_add c tag []).2.2 = [] := by
  unfold tag_add
  by_cases h : c.alloc_failed = true <;> by_cases hc : c.tags.length ≥ c.capacity <;>
    simp [h, hc, takeAlloc]

theorem tag_add_ok_of_al_nil (c : tag_collector_t) (tag : Nat)
    (h : c.alloc_failed = false) :
    (tag_add c tag []).2.1 = true ∧
      (tag_add c tag []).1.tags = c.tags ++ [tag] ∧
      (tag_add c tag []).1.alloc_failed = false := by
  unfold tag_add
  rw [h]
  by_cases hc : c.tags.length ≥ c.capacity <;> simp [hc, takeAlloc]

theorem heap_tagging_cb_nullptr (epoch : Nat) (o : HObj) (ctr : Nat)
    (col : tag_collector_t) (al : List Bool) (h : o.slot = none) :
    heap_tagging_cb epoch o ctr col al = ⟨o, ctr, col, al, true⟩ := by
  unfold heap_tagging_cb
  rw [h]

theorem heap_tagging_cb_tagged (epoch : Nat) (o : HObj) (ctr : Nat)
    (col : tag_collector_t) (al : List Bool) {v : Nat} (h : o.slot = some v)
    (hv : v ≠ 0) :
    heap_tagging_cb epoch o ctr col al = ⟨o, ctr, col, al, true⟩ := by
  unfold heap_tagging_cb
  rw [h]
  simp [hv]

theorem heap_tagging_cb_zero (epoch : Nat) (o : HObj) (ctr : Nat)
    (col : tag_collector_t) (al : List Bool) (h : o.slot = some 0) :
    heap_tagging_cb epoch o ctr col al =
      ⟨{ o with slot := some (mkTag epoch ctr) }, (ctr + 1) % W64,
        (tag_add col (mkTag epoch ctr) al).1,
        (tag_add col (mkTag epoch ctr) al).2.2,
        (tag_add col (mkTag epoch ctr) al).2.1⟩ := by
  unfold heap_tagging_cb
  rw [h]
  simp

theorem runTagPass_nil (epoch ctr : Nat) (col : tag_collector_t)
    (al : List Bool) : runTagPass epoch [] ctr col al = ⟨[], ctr, col, al⟩ := rfl

theorem runTagPass_cons_cont (epoch : Nat) (o : HObj) (rest : List HObj)
    (ctr : Nat) (col : tag_collector_t) (al : List Bool)
    (h : (heap_tagging_cb epoch o ctr col al).cont = true) :
    runTagPass epoch (o :: rest) ctr col al =
      ⟨(heap_tagging_cb epoch o ctr col al).obj ::
          (runTagPass epoch rest (heap_tagging_cb epoch o ctr col al).ctr
            (heap_tagging_cb epoch o ctr col al).col
            (heap_tagging_cb epoch o ctr col al).al).heap,
        (runTagPass epoch rest (heap_tagging_cb epoch o ctr col al).ctr
          (heap_tagging_cb epoch o ctr col al).col
          (heap_tagging_cb epoch o ctr col al).al).ctr,
        (runTagPass epoch rest (heap_tagging_cb epoch o ctr col al).ctr
          (heap_tagging_cb epoch o ctr col al).col
          (heap_tagging_cb epoch o ctr col al).al).col,
        (runTagPass epoch rest (heap_tagging_cb epoch o ctr col al).ctr
          (heap_tagging_cb epoch o ctr col al).col
          (heap_tagging_cb epoch o ctr col al).al).al⟩ := by
  conv_lhs => rw [runTagPass]
  rw [if_pos h]

theorem runTagPass_cons_abort (epoch : Nat) (o : HObj) (rest : List HObj)
    (ctr : Nat) (col : tag_collector_t) (al : List Bool)
    (h : (heap_tagging_cb epoch o ctr col al).cont = false) :
    runTagPass epoch (o :: rest) ctr col al =
      ⟨(heap_tagging_cb epoch o ctr col al).obj :: rest,
        (heap_tagging_cb epoch o ctr col al).ctr,
        (heap_tagging_cb epoch o ctr col al).col,
        (heap_tagging_cb epoch o ctr col al).al⟩ := by
  conv_lhs => rw [runTagPass]
  rw [if_neg (by simp [h])]

/-! ### Basic facts about `assignedTags` -/

theorem assignedTags_nil : assignedTags [] [] = [] := rfl

theorem assignedTags_refl (l : List HObj) : assignedTags l l = [] := by
  induction l with
  | nil => rfl
  | cons a t ih => simpa [assignedTags, List.zip_cons_cons] using ih

theorem assignedTags_cons_same (o : HObj) (h h' : List HObj) :
    assignedTags (o :: h) (o :: h') = assignedTags h h' := by
  simp [assignedTags, List.zip_cons_cons]

theorem assignedTags_cons_changed (o o' : HObj) (h h' : List HObj) {t : Nat}
    (hs : o.slot ≠ o'.slot) (ht : o'.slot = some t) :
    assignedTags (o :: h) (o' :: h') = t :: assignedTags h h' := by
  have hne : o.slot ≠ some t := fun hh => hs (hh.trans ht.symm)
  simp only [assignedTags, List.zip_cons_cons, List.filterMap_cons]
  simp [hs, ht, hne]

/-! ### The shape of a tagging pass

A pass starting from an un-failed collector assigns the consecutive counter
values `ctr, ctr+1, ...` (composed with the epoch) to the untagged objects it
visits in order; on an allocation failure the last assigned tag is missing
from the collector.  `n` is the number of slots written, `m` the number of
tags collected. -/

theorem runTagPass_spec (epoch : Nat) (h : List HObj) :
    ∀ (ctr : Nat) (col : tag_collector_t) (al : List Bool),
    col.alloc_failed = false → 1 ≤ ctr → ctr + h.length ≤ W32 →
    ∃ n m : Nat,
      n ≤ h.length ∧
      ((runTagPass epoch h ctr col al).col.alloc_failed = false → m = n) ∧
      ((runTagPass epoch h ctr col al).col.alloc_failed = true → m + 1 = n) ∧
      (runTagPass epoch h ctr col al).col.tags
        = col.tags ++ (List.range' ctr m).map (mkTag epoch) ∧
      assignedTags h (runTagPass epoch h ctr col al).heap
        = (List.range' ctr n).map (mkTag epoch) ∧
      ((runTagPass epoch h ctr col al).col.alloc_failed = false →
        List.Forall₂ (fun a b =>
          (a.slot = some 0 →
            ∃ l, ctr ≤ l ∧ l < ctr + n ∧ b.slot = some (mkTag epoch l)) ∧
          (a.slot ≠ some 0 → b = a)) h (runTagPass epoch h ctr col al).heap) := by
  induction h with
  | nil =>
    intro ctr col al hcol _h1 _hW
    refine ⟨0, 0, Nat.le_refl _, fun _ => rfl, ?_, by simp [runTagPass_nil], ?_, ?_⟩
    · intro hcontra
      rw [runTagPass_nil] at hcontra
      rw [hcol] at hcontra
      cases hcontra
    · simp [runTagPass_nil, assignedTags_nil]
    · intro _
      rw [runTagPass_nil]
      exact List.Forall₂.nil
  | cons o rest ih =>
    intro ctr col al hcol h1 hW
    simp only [List.length_cons] at hW
    have hWrest : ctr + rest.length ≤ W32 := by omega
    rcases hslot : o.slot with _ | v
    · -- NULL tag pointer: skipped
      have hcb := heap_tagging_cb_nullptr epoch o ctr col al hslot
      have hcont : (heap_tagging_cb epoch o ctr col al).cont = true := by
        rw [hcb]
      rw [runTagPass_cons_cont epoch o rest ctr col al hcont, hcb]
      dsimp only
      obtain ⟨n, m, hn, hfok, hffail, htags, hassign, hfa⟩ :=
        ih ctr col al hcol h1 hWrest
      refine ⟨n, m, ?_, hfok, hffail, htags, ?_, ?_⟩
      · simp only [List.length_cons]; omega
      · rw [assignedTags_cons_same, hassign]
      · intro hflag
        refine List.Forall₂.cons ⟨?_, fun _ => rfl⟩ (hfa hflag)
        intro h0
        rw [hslot] at h0
        cases h0
    · by_cases hv : v = 0
      · -- untagged object: gets a fresh tag
        subst hv
        have hcb := heap_tagging_cb_zero epoch o ctr col al hslot
        have hctrlt : ctr < W32 := by omega
        have htne : mkTag epoch ctr ≠ 0 :=
          mkTag_ne_zero epoch ctr (by rw [Nat.mod_eq_of_lt hctrlt]; omega)
        have hsne : o.slot ≠ some (mkTag epoch ctr) := by
          rw [hslot]
          intro hh
          exact htne (Option.some.inj hh).symm
        have hctr1 : (ctr + 1) % W64 = ctr + 1 := by
          apply Nat.mod_eq_of_lt
          have : W32 < W64 := by norm_num [W32, W64]
          omega
        rcases tag_add_cases col (mkTag epoch ctr) al hcol with
          ⟨hok, htadd, hfaf⟩ | ⟨hok, htadd, hfaf⟩
        · -- append succeeded, iteration continues
          have hcont : (heap_tagging_cb epoch o ctr col al).cont = true := by
            rw [hcb]; exact hok
          rw [runTagPass_cons_cont epoch o rest ctr col al hcont, hcb]
          dsimp only
          rw [hctr1]
          obtain ⟨n, m, hn, hfok, hffail, htags, hassign, hfa⟩ :=
            ih (ctr + 1) (tag_add col (mkTag epoch ctr) al).1
              (tag_add col (mkTag epoch ctr) al).2.2 hfaf (by omega) (by omega)
          refine ⟨n + 1, m + 1, ?_, ?_, ?_, ?_, ?_, ?_⟩
          · simp only [List.length_cons]; omega
          · intro hflag; rw [hfok hflag]
          · intro hflag; rw [hffail hflag]
          · rw [htags, htadd, List.range'_succ, List.map_cons]
            simp
          · rw [assignedTags_cons_changed o _ rest _ hsne rfl, hassign,
              List.range'_succ, List.map_cons]
          · intro hflag
            refine List.Forall₂.cons ⟨fun _ => ⟨ctr, Nat.le_refl _, by omega, rfl⟩,
              fun hne => absurd hslot hne⟩ ?_
            refine (hfa hflag).imp ?_
            rintro a b ⟨f1, f2⟩
            refine ⟨fun h0 => ?_, f2⟩
            obtain ⟨l, hl1, hl2, hl3⟩ := f1 h0
            exact ⟨l, by omega, by omega, hl3⟩
        · -- append failed: slot already written, iteration aborts
          have hcont : (heap_tagging_cb epoch o ctr col al).cont = false := by
            rw [hcb]; exact hok
          rw [runTagPass_cons_abort epoch o rest ctr col al hcont, hcb]
          dsimp only
          refine ⟨1, 0, by simp, ?_, fun _ => rfl, by simp [htadd], ?_, ?_⟩
          · intro hcontra
            rw [hfaf] at hcontra
            cases hcontra
          · rw [assignedTags_cons_changed o _ rest rest hsne rfl, assignedTags_refl]
            simp [List.range'_one]
          · intro hcontra
            rw [hfaf] at hcontra
            cases hcontra
      · -- already tagged: left untouched
        have hcb := heap_tagging_cb_tagged epoch o ctr col al hslot hv
        have hcont : (heap_tagging_cb epoch o ctr col al).cont = true := by
          rw [hcb]
        rw [runTagPass_cons_cont epoch o rest ctr col al hcont, hcb]
        dsimp only
        obtain ⟨n, m, hn, hfok, hffail, htags, hassign, hfa⟩ :=
          ih ctr col al hcol h1 hWrest
        refine ⟨n, m, ?_, hfok, hffail, htags, ?_, ?_⟩
        · simp only [List.length_cons]; omega
        · rw [assignedTags_cons_same, hassign]
        · intro hflag
          refine List.Forall₂.cons ⟨?_, fun _ => rfl⟩ (hfa hflag)
          intro h0
          rw [hslot] at h0
          exact absurd (Option.some.inj h0) hv

/-! ### Derived facts about passes and resolution -/

/-- With an exhausted (all-success) allocation schedule a pass never fails:
the schedule stays exhausted and the collector's failure flag stays clear. -/
theorem runTagPass_exhausted (epoch : Nat) (h : List HObj) :
    ∀ ctr (col : tag_collector_t), col.alloc_failed = false →
      (runTagPass epoch h ctr col []).al = [] ∧
      (runTagPass epoch h ctr col []).col.alloc_failed = false := by
  induction h with
  | nil => intro ctr col hcol; exact ⟨rfl, hcol⟩
  | cons o rest ih =>
    intro ctr col hcol
    rcases hslot : o.slot with _ | v
    · have hcb := heap_tagging_cb_nullptr epoch o ctr col [] hslot
      have hcont : (heap_tagging_cb epoch o ctr col []).cont = true := by rw [hcb]
      rw [runTagPass_cons_cont epoch o rest ctr col [] hcont, hcb]
      exact ih ctr col hcol
    · by_cases hv : v = 0
      · subst hv
        have hcb := heap_tagging_cb_zero epoch o ctr col [] hslot
        obtain ⟨hok, _, hfaf⟩ := tag_add_ok_of_al_nil col (mkTag epoch ctr) hcol
        have hcont : (heap_tagging_cb epoch o ctr col []).cont = true := by
          rw [hcb]; exact hok
        rw [runTagPass_cons_cont epoch o rest ctr col [] hcont, hcb]
        dsimp only
        rw [tag_add_al_nil]
        exact ih _ _ hfaf
      · have hcb := heap_tagging_cb_tagged epoch o ctr col [] hslot hv
        have hcont : (heap_tagging_cb epoch o ctr col []).cont = true := by rw [hcb]
        rw [runTagPass_cons_cont epoch o rest ctr col [] hcont, hcb]
        exact ih ctr col hcol

/-- Anything `GetObjectsWithTags` returns carries one of the requested tags. -/
theorem gowtOfHeap_mem {heap : List HObj} {tags : List Nat} {p : HObj × Nat}
    (hp : p ∈ gowtOfHeap heap tags) : p.2 ∈ tags := by
  unfold gowtOfHeap at hp
  rw [List.mem_filterMap] at hp
  obtain ⟨o, _, ho⟩ := hp
  rcases hs : o.slot with _ | v
  · rw [hs] at ho; dsimp only at ho; cases ho
  · rw [hs] at ho; dsimp only at ho
    by_cases hv : v ∈ tags
    · rw [if_pos hv] at ho
      obtain rfl := Option.some.inj ho
      exact hv
    · rw [if_neg hv] at ho; cases ho

/-- Anything the resolution step returns carries one of the requested tags. -/
theorem resolveStage_mem {gowtOk : Bool} {heap : List HObj} {tags : List Nat}
    {p : HObj × Nat} (hp : p ∈ resolveStage gowtOk heap tags) : p.2 ∈ tags := by
  unfold resolveStage at hp
  split at hp
  · split at hp
    · exact gowtOfHeap_mem hp
    · cases hp
  · cases hp

/-- Consecutive counter values below `2 ^ 32` compose into pairwise distinct
identifiers. -/
theorem nodup_map_mkTag (epoch s k : Nat) (hk : s + k ≤ W32) :
    ((List.range' s k).map (mkTag epoch)).Nodup := by
  refine (List.nodup_range' s k).map_on ?_
  intro x hx y hy hxy
  rw [List.mem_range'_1] at hx hy
  exact mkTag_inj epoch (by omega) (by omega) hxy

/-- With an all-success schedule, a pass leaves no visited slot at 0 and
collects no zero tag (counter values stay in `[1, 2^32)`). -/
theorem runTagPass_slots_nonzero (epoch : Nat) (h : List HObj) :
    ∀ ctr (col : tag_collector_t), col.alloc_failed = false → 1 ≤ ctr →
      ctr + h.length ≤ W32 → (∀ t ∈ col.tags, t ≠ 0) →
      (∀ o ∈ (runTagPass epoch h ctr col []).heap, o.slot ≠ some 0) ∧
      (∀ t ∈ (runTagPass epoch h ctr col []).col.tags, t ≠ 0) := by
  induction h with
  | nil =>
    intro ctr col hcol _ _ htags
    rw [runTagPass_nil]
    refine ⟨?_, htags⟩
    intro o ho
    cases ho
  | cons o rest ih =>
    intro ctr col hcol h1 hW htags
    simp only [List.length_cons] at hW
    rcases hslot : o.slot with _ | v
    · have hcb := heap_tagging_cb_nullptr epoch o ctr col [] hslot
      have hcont : (heap_tagging_cb epoch o ctr col []).cont = true := by rw [hcb]
      rw [runTagPass_cons_cont epoch o rest ctr col [] hcont, hcb]
      dsimp only
      obtain ⟨hh, ht⟩ := ih ctr col hcol h1 (by omega) htags
      refine ⟨?_, ht⟩
      intro o' ho'
      rcases List.mem_cons.mp ho' with rfl | ho'
      · rw [hslot]; intro hc; cases hc
      · exact hh o' ho'
    · by_cases hv : v = 0
      · subst hv
        have hcb := heap_tagging_cb_zero epoch o ctr col [] hslot
        obtain ⟨hok, htadd, hfaf⟩ := tag_add_ok_of_al_nil col (mkTag epoch ctr) hcol
        have hcont : (heap_tagging_cb epoch o ctr col []).cont = true := by
          rw [hcb]; exact hok
        have htne : mkTag epoch ctr ≠ 0 :=
          mkTag_ne_zero epoch ctr (by rw [Nat.mod_eq_of_lt (by omega)]; omega)
        have hctr1 : (ctr + 1) % W64 = ctr + 1 := by
          apply Nat.mod_eq_of_lt
          have : W32 < W64 := by norm_num [W32, W64]
          omega
        rw [runTagPass_cons_cont epoch o rest ctr col [] hcont, hcb]
        dsimp only
        rw [tag_add_al_nil, hctr1]
        have htags' : ∀ t ∈ (tag_add col (mkTag epoch ctr) []).1.tags, t ≠ 0 := by
          rw [htadd]
          intro t ht
          rcases List.mem_append.mp ht with ht | ht
          · exact htags t ht
          · rcases List.mem_singleton.mp ht with rfl
            exact htne
        obtain ⟨hh, ht⟩ := ih (ctr + 1) _ hfaf (by omega) (by omega) htags'
        refine ⟨?_, ht⟩
        intro o' ho'
        rcases List.mem_cons.mp ho' with rfl | ho'
        · intro hc
          exact htne (Option.some.inj hc)
        · exact hh o' ho'
      · have hcb := heap_tagging_cb_tagged epoch o ctr col [] hslot hv
        have hcont : (heap_tagging_cb epoch o ctr col []).cont = true := by rw [hcb]
        rw [runTagPass_cons_cont epoch o rest ctr col [] hcont, hcb]
        dsimp only
        obtain ⟨hh, ht⟩ := ih ctr col hcol h1 (by omega) htags
        refine ⟨?_, ht⟩
        intro o' ho'
        rcases List.mem_cons.mp ho' with rfl | ho'
        · rw [hslot]
          intro hc
          exact hv (Option.some.inj hc)
        · exact hh o' ho'

/-- `clear_tag_cb` is pointwise idempotent. -/
theorem clear_tag_cb_idem (o : HObj) : clear_tag_cb (clear_tag_cb o) = clear_tag_cb o := by
  rcases o with ⟨s, nm⟩
  rcases s with _ | v
  · rfl
  · by_cases hv : v = 0 <;> simp [clear_tag_cb, hv]

/-- A cleared slot is `none` or `some 0`. -/
theorem clear_tag_cb_slot (o : HObj) :
    (clear_tag_cb o).slot = none ∨ (clear_tag_cb o).slot = some 0 := by
  rcases o with ⟨s, nm⟩
  rcases s with _ | v
  · left; rfl
  · by_cases hv : v = 0 <;> simp [clear_tag_cb, hv]

/-- `clear_tag_cb` writes nothing to an already-clear slot. -/
theorem clear_tag_cb_noop (o : HObj) (h : o.slot = none ∨ o.slot = some 0) :
    clear_tag_cb o = o := by
  rcases o with ⟨s, nm⟩
  rcases h with h | h <;> simp only at h <;> subst h <;> simp [clear_tag_cb]

/-- Resolution of an empty tag set finds nothing. -/
theorem resolveStage_nil_tags (gowtOk : Bool) (heap : List HObj) :
    resolveStage gowtOk heap [] = [] := by
  simp [resolveStage]

/-- A failed `GetObjectsWithTags` call yields `found = 0`. -/
theorem resolveStage_err (heap : List HObj) (tags : List Nat) :
    resolveStage false heap tags = [] := by
  unfold resolveStage
  split <;> simp

/-- When nothing resolves and the remaining schedule grants every
allocation, the post-pass pipeline returns the count-0 snapshot. -/
theorem snapAfterPass_empty (gowtOk : Bool) (heap : List HObj) (tags : List Nat)
    (hres : resolveStage gowtOk heap tags = []) :
    snapAfterPass gowtOk heap tags [] = some (encodeStage []) := by
  unfold snapAfterPass
  rw [hres]
  norm_num [prepNames, snapTotal, takeAlloc, INT_MAX]

/-- Iterating the epoch increment adds `N` modulo `2 ^ 64`. -/
theorem iterate_advanceEpoch (N : Nat) :
    ∀ e : Nat, e < W64 →
      Nat.iterate nativeAdvanceEpoch N e = (e + N) % W64 := by
  induction N with
  | zero => intro e he; simp [Nat.mod_eq_of_lt he]
  | succ n ihn =>
    intro e he
    rw [Function.iterate_succ_apply', ihn e he, nativeAdvanceEpoch,
      Nat.mod_add_mod, Nat.add_assoc]

/-- The per-class loop never decreases the epoch (each resolved class bumps
it once and nothing resets it), as long as the bumps cannot wrap. -/
theorem walkLoop_epoch_mono (classes : List (Option (List HObj))) :
    ∀ (collected : List HObj) (cap epoch : Nat) (al : List Bool)
      (released : List HObj), epoch + classes.length < W64 →
      epoch ≤ (walkLoop classes collected cap epoch al released).epoch := by
  induction classes with
  | nil =>
    intro collected cap epoch al released _
    simp only [walkLoop]
    split
    · exact Nat.le_refl _
    · split <;> exact Nat.le_refl _
  | cons c rest ih =>
    intro collected cap epoch al released hW
    simp only [List.length_cons] at hW
    rcases c with _ | objs
    · simp only [walkLoop]
      exact ih collected cap epoch al released (by omega)
    · have hep : (epoch + 1) % W64 = epoch + 1 := Nat.mod_eq_of_lt (by omega)
      have hstep : ∀ coll' cap' al' rel',
          epoch ≤ (walkLoop rest coll' cap' ((epoch + 1) % W64) al' rel').epoch := by
        intro coll' cap' al' rel'
        rw [hep]
        exact Nat.le_trans (Nat.le_succ epoch)
          (ih coll' cap' (epoch + 1) al' rel' (by omega))
      simp only [walkLoop]
      split
      · exact hstep _ _ _ _
      · split
        · split
          · split
            · exact hstep _ _ _ _
            · dsimp only
              rw [hep]
              omega
          · exact hstep _ _ _ _
        · exact hstep _ _ _ _

/-! ### The claims -/

/-- C2: The snapshot encoder produces exactly the documented byte layout —
a 4-byte big-endian object count, then per record an 8-byte big-endian
identifier, a 4-byte big-endian class-name byte length, and the name bytes
with no terminator; in particular the single entry `(tag = 5, name = "A")`
encodes to the 17 bytes
`00 00 00 01 | 00 00 00 00 00 00 00 05 | 00 00 00 01 | 'A'`. -/
theorem c2_snapshot_wire_format :
    (∀ es : List SnapEntry,
      encodeStage es = be32 es.length ++
        es.flatMap fun e => be_bytes 8 e.tag ++ be32 e.name.length ++ e.name) ∧
    encodeStage [⟨5, [65], true⟩] =
      [0, 0, 0, 1, 0, 0, 0, 0, 0, 0, 0, 5, 0, 0, 0, 1, 65] ∧
    be_bytes 8 5 = [0, 0, 0, 0, 0, 0, 0, 5] ∧ be32 1 = [0, 0, 0, 1] := by
  have hname : ∀ e : SnapEntry,
      (if 0 < e.name.length then e.name else []) = e.name := by
    intro e
    split
    · rfl
    · rename_i hcond
      have hz : e.name.length = 0 := by omega
      exact (List.length_eq_zero.mp hz).symm
  refine ⟨?_, by decide, by decide, by decide⟩
  intro es
  unfold encodeStage
  simp only [hname]

/-- C3: every identifier the tagging callback assigns to an untagged object
is `(epoch <<< 32) ||| local`, with the epoch masked to the high 32 bits and
the fetched counter value masked to the low 32 bits, so counter values at or
above `2 ^ 32` wrap into the low word. -/
theorem c3_identifier_composition (epoch : Nat) (o : HObj) (ctr : Nat)
    (col : tag_collector_t) (al : List Bool) (h0 : o.slot = some 0) :
    (heap_tagging_cb epoch o ctr col al).obj.slot = some (mkTag epoch ctr) ∧
    mkTag epoch ctr = ((epoch % W32) <<< 32) ||| (ctr &&& 0xFFFFFFFF) ∧
    mkTag epoch ctr / W32 = epoch % W32 ∧
    mkTag epoch ctr % W32 = ctr % W32 ∧
    mkTag epoch (ctr + W32) = mkTag epoch ctr := by
  refine ⟨?_, rfl, mkTag_div epoch ctr, mkTag_mod epoch ctr, mkTag_wrap epoch ctr⟩
  rw [heap_tagging_cb_zero epoch o ctr col al h0]

/-- Witness for C3 at epoch 7, counter 9. -/
theorem c3_identifier_composition_witness :
    (⟨some 0, none⟩ : HObj).slot = some 0 ∧
    ((heap_tagging_cb 7 ⟨some 0, none⟩ 9 emptyCol []).obj.slot = some (mkTag 7 9) ∧
      mkTag 7 9 = ((7 % W32) <<< 32) ||| (9 &&& 0xFFFFFFFF) ∧
      mkTag 7 9 / W32 = 7 % W32 ∧
      mkTag 7 9 % W32 = 9 % W32 ∧
      mkTag 7 (9 + W32) = mkTag 7 9) :=
  ⟨rfl, c3_identifier_composition 7 ⟨some 0, none⟩ 9 emptyCol [] rfl⟩

/-- C4: within one tagging pass (counter reset to 1 at pass start), as long
as fewer than `2 ^ 32` objects are visited, no two objects receive the same
identifier — the slots the pass writes are pairwise distinct, and so are the
tags it collects. -/
theorem c4_identifiers_unique_within_pass (epoch : Nat) (h : List HObj)
    (al : List Bool) (hlen : h.length < W32) :
    (assignedTags h (runTagPass epoch h 1 emptyCol al).heap).Nodup ∧
    (runTagPass epoch h 1 emptyCol al).col.tags.Nodup := by
  obtain ⟨n, m, hn, hfok, hffail, htags, hassign, _⟩ :=
    runTagPass_spec epoch h 1 emptyCol al rfl (Nat.le_refl 1) (by omega)
  have hmn : m ≤ n := by
    rcases hb : (runTagPass epoch h 1 emptyCol al).col.alloc_failed
    · have := hfok hb; omega
    · have := hffail hb; omega
  constructor
  · rw [hassign]
    exact nodup_map_mkTag epoch 1 n (by omega)
  · have hnd := nodup_map_mkTag epoch 1 m (by omega)
    rw [htags]
    simpa [emptyCol] using hnd

/-- Witness for C4 on a two-object heap. -/
theorem c4_identifiers_unique_within_pass_witness :
    ([⟨some 0, some [65]⟩, ⟨some 0, some [66]⟩] : List HObj).length < W32 ∧
    ((assignedTags [⟨some 0, some [65]⟩, ⟨some 0, some [66]⟩]
        (runTagPass 1 [⟨some 0, some [65]⟩, ⟨some 0, some [66]⟩] 1
          emptyCol []).heap).Nodup ∧
      (runTagPass 1 [⟨some 0, some [65]⟩, ⟨some 0, some [66]⟩] 1
          emptyCol []).col.tags.Nodup) :=
  ⟨by decide,
    c4_identifiers_unique_within_pass 1 [⟨some 0, some [65]⟩, ⟨some 0, some [66]⟩]
      [] (by decide)⟩

/-- C5: after a (non-aborted) tagging pass over fewer than `2 ^ 32` objects,
no visited object's tag slot holds 0 — the callback never assigns 0 because
the counter issues from 1 upward — so 0 exclusively means "untagged". -/
theorem c5_zero_tag_reserved (epoch : Nat) (h : List HObj)
    (hlen : h.length < W32) :
    (∀ o ∈ (runTagPass epoch h 1 emptyCol []).heap, o.slot ≠ some 0) ∧
    (∀ t ∈ (runTagPass epoch h 1 emptyCol []).col.tags, t ≠ 0) :=
  runTagPass_slots_nonzero epoch h 1 emptyCol rfl (Nat.le_refl 1) (by omega)
    (fun t ht => absurd ht (List.not_mem_nil t))

/-- Witness for C5 on a one-object heap. -/
theorem c5_zero_tag_reserved_witness :
    ([⟨some 0, none⟩] : List HObj).length < W32 ∧
    ((∀ o ∈ (runTagPass 2 [⟨some 0, none⟩] 1 emptyCol []).heap,
        o.slot ≠ some 0) ∧
      (∀ t ∈ (runTagPass 2 [⟨some 0, none⟩] 1 emptyCol []).col.tags, t ≠ 0)) :=
  ⟨by decide, c5_zero_tag_reserved 2 [⟨some 0, none⟩] (by decide)⟩

/-- C7: `advanceEpoch` called `N` times increases the epoch by exactly `N`
(strictly, for `N > 0`), and the only other mutation of the epoch — the
per-class bump inside the multi-class walk — also only moves it forward. -/
theorem c7_epoch_monotonic (e N : Nat) (classes : List (Option (List HObj)))
    (al : List Bool) (hN : e + N < W64) (h0 : 0 < N)
    (hcl : e + classes.length < W64) :
    Nat.iterate nativeAdvanceEpoch N e = e + N ∧
    e < Nat.iterate nativeAdvanceEpoch N e ∧
    e ≤ (nativeWalkHeapFiltered classes e al).epoch := by
  have h1 : Nat.iterate nativeAdvanceEpoch N e = e + N := by
    rw [iterate_advanceEpoch N e (by omega), Nat.mod_eq_of_lt hN]
  refine ⟨h1, by omega, ?_⟩
  unfold nativeWalkHeapFiltered
  split
  · exact Nat.le_refl _
  · exact walkLoop_epoch_mono classes [] 0 e al [] hcl

/-- Witness for C7: three increments from epoch 1, and a one-class walk. -/
theorem c7_epoch_monotonic_witness :
    1 + 3 < W64 ∧ 0 < 3 ∧ 1 + ([none] : List (Option (List HObj))).length < W64 ∧
    (Nat.iterate nativeAdvanceEpoch 3 1 = 1 + 3 ∧
      1 < Nat.iterate nativeAdvanceEpoch 3 1 ∧
      1 ≤ (nativeWalkHeapFiltered [none] 1 []).epoch) :=
  ⟨by decide, by decide, by decide,
    c7_epoch_monotonic 1 3 [none] [] (by decide) (by decide) (by decide)⟩

/-- C8: the clear pass is idempotent — running it twice equals running it
once; after one clear every slot is NULL or 0, and the clear callback writes
nothing to a slot that is already NULL or 0. -/
theorem c8_clear_idempotent (h : List HObj) :
    clear_all_tags (clear_all_tags h) = clear_all_tags h ∧
    (∀ o ∈ clear_all_tags h, o.slot = none ∨ o.slot = some 0) ∧
    (∀ o : HObj, (o.slot = none ∨ o.slot = some 0) → clear_tag_cb o = o) := by
  refine ⟨?_, ?_, clear_tag_cb_noop⟩
  · unfold clear_all_tags
    rw [List.map_map]
    exact List.map_congr_left fun o _ => clear_tag_cb_idem o
  · intro o ho
    obtain ⟨a, _, rfl⟩ := List.mem_map.mp ho
    exact clear_tag_cb_slot a

/-- Witness for C8 on a one-object heap with a live tag. -/
theorem c8_clear_idempotent_witness :
    clear_all_tags (clear_all_tags [⟨some 5, some [65]⟩]) =
      clear_all_tags [⟨some 5, some [65]⟩] ∧
    (∀ o ∈ clear_all_tags [⟨some 5, some [65]⟩],
      o.slot = none ∨ o.slot = some 0) ∧
    (∀ o : HObj, (o.slot = none ∨ o.slot = some 0) → clear_tag_cb o = o) :=
  c8_clear_idempotent [⟨some 5, some [65]⟩]

/-- C9: when the tagging pass collects no tags, or tag resolution reports
zero matches, the single-class snapshot call does not return NULL: it
returns the valid 4-byte snapshot whose big-endian count field is 0 and
which contains no records. -/
theorem c9_empty_snapshot_not_null (gowtOk : Bool) (h : List HObj)
    (epoch : Nat)
    (hcase : (runTagPass epoch (clear_all_tags h) 1 emptyCol []).col.tags = []
      ∨ gowtOk = false) :
    nativeSnapshotBytes gowtOk h epoch [] = some (encodeStage []) ∧
    encodeStage [] = [0, 0, 0, 0] := by
  refine ⟨?_, by decide⟩
  obtain ⟨hal, _⟩ := runTagPass_exhausted epoch (clear_all_tags h) 1 emptyCol rfl
  simp only [nativeSnapshotBytes]
  rw [hal]
  apply snapAfterPass_empty
  rcases hcase with hc | hc
  · rw [hc]
    exact resolveStage_nil_tags _ _
  · rw [hc]
    exact resolveStage_err _ _

/-- Witness for C9: a failing `GetObjectsWithTags` over a one-object heap. -/
theorem c9_empty_snapshot_not_null_witness :
    ((runTagPass 1 (clear_all_tags [⟨some 0, some [65]⟩]) 1
        emptyCol []).col.tags = [] ∨ (false : Bool) = false) ∧
    (nativeSnapshotBytes false [⟨some 0, some [65]⟩] 1 [] =
        some (encodeStage []) ∧
      encodeStage [] = [0, 0, 0, 0]) :=
  ⟨Or.inr rfl, c9_empty_snapshot_not_null false [⟨some 0, some [65]⟩] 1 (Or.inr rfl)⟩

/-- C10: the callback stores the fresh identifier in the object's slot
before attempting the append, so when the append fails and the pass aborts,
some visited object keeps a newly assigned non-zero tag that is in neither
the collector nor anything tag resolution can return for it. -/
theorem c10_slot_written_before_append (epoch : Nat) (h : List HObj)
    (al : List Bool) (hlen : h.length < W32)
    (hfail : (runTagPass epoch h 1 emptyCol al).col.alloc_failed = true) :
    (∀ (o : HObj) (ctr : Nat) (col : tag_collector_t) (al' : List Bool),
        o.slot = some 0 →
        (heap_tagging_cb epoch o ctr col al').obj.slot = some (mkTag epoch ctr)) ∧
    ∃ t, t ∈ assignedTags h (runTagPass epoch h 1 emptyCol al).heap ∧ t ≠ 0 ∧
      t ∉ (runTagPass epoch h 1 emptyCol al).col.tags ∧
      ∀ p ∈ resolveStage true (runTagPass epoch h 1 emptyCol al).heap
          (runTagPass epoch h 1 emptyCol al).col.tags, p.2 ≠ t := by
  constructor
  · intro o ctr col al' h0
    rw [heap_tagging_cb_zero epoch o ctr col al' h0]
  · obtain ⟨n, m, hn, _, hffail, htags, hassign, _⟩ :=
      runTagPass_spec epoch h 1 emptyCol al rfl (Nat.le_refl 1) (by omega)
    have hmn : m + 1 = n := hffail hfail
    have hnotin : mkTag epoch (1 + m) ∉ (runTagPass epoch h 1 emptyCol al).col.tags := by
      rw [htags]
      intro hmem
      rcases List.mem_append.mp hmem with hmem | hmem
      · exact absurd hmem (List.not_mem_nil _)
      · obtain ⟨l, hl, heq⟩ := List.mem_map.mp hmem
        rw [List.mem_range'_1] at hl
        have := mkTag_inj epoch (by omega) (by omega) heq
        omega
    refine ⟨mkTag epoch (1 + m), ?_, ?_, hnotin, ?_⟩
    · rw [hassign]
      exact List.mem_map_of_mem _ (List.mem_range'_1.mpr ⟨by omega, by omega⟩)
    · exact mkTag_ne_zero epoch (1 + m)
        (by rw [Nat.mod_eq_of_lt (by omega)]; omega)
    · intro p hp hpt
      exact hnotin (hpt ▸ resolveStage_mem hp)

/-- Witness for C10: a one-object heap whose first tag-buffer `realloc` is
made to fail. -/
theorem c10_slot_written_before_append_witness :
    ([⟨some 0, some []⟩] : List HObj).length < W32 ∧
    (runTagPass 3 [⟨some 0, some []⟩] 1 emptyCol [false]).col.alloc_failed = true ∧
    ((∀ (o : HObj) (ctr : Nat) (col : tag_collector_t) (al' : List Bool),
        o.slot = some 0 →
        (heap_tagging_cb 3 o ctr col al').obj.slot = some (mkTag 3 ctr)) ∧
      ∃ t, t ∈ assignedTags [⟨some 0, some []⟩]
            (runTagPass 3 [⟨some 0, some []⟩] 1 emptyCol [false]).heap ∧ t ≠ 0 ∧
        t ∉ (runTagPass 3 [⟨some 0, some []⟩] 1 emptyCol [false]).col.tags ∧
        ∀ p ∈ resolveStage true
            (runTagPass 3 [⟨some 0, some []⟩] 1 emptyCol [false]).heap
            (runTagPass 3 [⟨some 0, some []⟩] 1 emptyCol [false]).col.tags,
          p.2 ≠ t) :=
  ⟨by decide, by decide,
    c10_slot_written_before_append 3 [⟨some 0, some []⟩] [false]
      (by decide) (by decide)⟩

/-- The C1 failing input: 129 untagged instances of the target class, each
resolving to an empty class name.  With the schedule `[true, false]` the
first tag-buffer `realloc` (at the 1st append) succeeds and the second one
(at the 129th append, when the capacity of 128 is exhausted) fails. -/
def c1Heap : List HObj := List.replicate 129 ⟨some 0, some []⟩

set_option maxRecDepth 100000 in
/-- C1: an allocation failure at the 129th append aborts the iteration and
sets the collector's failure flag with 128 tags collected — yet
`nativeSnapshotBytes` does not return NULL: it returns a 1540-byte snapshot
whose big-endian count field is 128, i.e. a snapshot built from the
`k - 1` previously collected identifiers. -/
theorem c1_snapshot_not_null_on_append_failure :
    (runTagPass 1 (clear_all_tags c1Heap) 1 emptyCol
        [true, false]).col.alloc_failed = true ∧
    (runTagPass 1 (clear_all_tags c1Heap) 1 emptyCol
        [true, false]).col.tags.length = 128 ∧
    (nativeSnapshotBytes true c1Heap 1 [true, false]).isSome = true ∧
    (nativeSnapshotBytes true c1Heap 1 [true, false]).map (List.take 4) =
      some [0, 0, 0, 128] ∧
    (nativeSnapshotBytes true c1Heap 1 [true, false]).map List.length =
      some 1540 := by
  decide

/-- The C6 failing input: two resolvable classes, the first with one live
instance (name byte 65), the second with 65 live instances (name byte 66).
Schedule `[true, true, true, false]`: both per-class tag-buffer reallocs and
the first reference-buffer growth succeed; the second reference-buffer
growth (needed because `1 + 65 > 65`) fails. -/
def c6Classes : List (Option (List HObj)) :=
  [some [⟨some 0, some [65]⟩], some (List.replicate 65 ⟨some 0, some [66]⟩)]

set_option maxRecDepth 100000 in
/-- C6: when growth of the shared reference buffer fails, the walk does
return NULL, and it releases the 65 references of the batch being appended —
but the reference collected from the first class (which `gowtOfHeap` shows
was stored in the shared buffer) is not among the released references. -/
theorem c6_growth_failure_returns_null_but_leaks :
    (nativeWalkHeapFiltered c6Classes 1 [true, true, true, false]).result = none ∧
    (nativeWalkHeapFiltered c6Classes 1 [true, true, true, false]).released.length
      = 65 ∧
    (∀ o ∈ (nativeWalkHeapFiltered c6Classes 1 [true, true, true, false]).released,
      o.name = some [66]) ∧
    (⟨some (mkTag 2 1), some [65]⟩ : HObj) ∉
      (nativeWalkHeapFiltered c6Classes 1 [true, true, true, false]).released ∧
    gowtOfHeap
        (runTagPass 2 [⟨some 0, some [65]⟩] 1 emptyCol
          [true, true, true, false]).heap
        (runTagPass 2 [⟨some 0, some [65]⟩] 1 emptyCol
          [true, true, true, false]).col.tags
      = [(⟨some (mkTag 2 1), some [65]⟩, mkTag 2 1)] := by
  decide

end Agent
